import Mathlib

/-!
Verification of `ref_with_2_flags.rs`: a tagged-pointer abstraction that
stores a reference to a 4-byte-aligned type together with two boolean flags
inside a single machine word (`usize`).

The Rust source is embedded shallowly: a machine address is a `Nat` below
`2 ^ 64`, `bool as usize` is `Bool.toNat`, and the `assert!` in
`RefWith2Flags::new` (which aborts construction on an alignment violation)
is modelled by returning `Option`, with `none` for the panicking branch.
-/

/-- Bit width of the machine word type `usize` (64-bit target). -/
def usizeBits : Nat := 64

/-- Number of distinct `usize` values, `2 ^ 64`. -/
def usizeSize : Nat := 2 ^ usizeBits

/-- The numeric value of the Rust expression `!3usize`: all word bits set
except the two least-significant ones. -/
def notThree : Nat := usizeSize - 4

/-- Embedding of `struct RefWith2Flags<'a, T>`.  The single stored field is
`ptr_and_bit: usize`; the `PhantomData` marker occupies no space and carries
no data, so it is omitted.  The borrowed target is tracked separately as a
numeric address wherever a theorem needs it. -/
structure RefWith2Flags where
  ptr_and_bit : Nat
deriving DecidableEq

/-- Embedding of `RefWith2Flags::new(ptr, flag_a, flag_b)`.
`alignOfT` stands for `align_of::<T>()` and `ptr` for the numeric value of
`ptr as *const T as usize`.  The Rust body is
`assert!(align_of::<T>() % 4 == 0)` followed by
`ptr_and_bit: ptr as *const T as usize | flag_a as usize | ((flag_b as usize) << 1)`;
the failed assertion (a panic) is modelled as `none`. -/
def RefWith2Flags.new (alignOfT ptr : Nat) (flag_a flag_b : Bool) :
    Option RefWith2Flags :=
  if alignOfT % 4 = 0 then
    some { ptr_and_bit := ptr ||| flag_a.toNat ||| flag_b.toNat <<< 1 }
  else
    none

/-- Embedding of `RefWith2Flags::get_ref`: `(self.ptr_and_bit & !3) as *const T`.
The result is the numeric address of the returned reference; dereferencing is
modelled by applying a memory function to this address. -/
def RefWith2Flags.get_ref (self : RefWith2Flags) : Nat :=
  self.ptr_and_bit &&& notThree

/-- Embedding of `RefWith2Flags::get_flag_a`: `self.ptr_and_bit & 1 != 0`. -/
def RefWith2Flags.get_flag_a (self : RefWith2Flags) : Bool :=
  self.ptr_and_bit &&& 1 != 0

/-- Embedding of `RefWith2Flags::get_flag_b`: `self.ptr_and_bit & 2 != 0`. -/
def RefWith2Flags.get_flag_b (self : RefWith2Flags) : Bool :=
  self.ptr_and_bit &&& 2 != 0

/-- The three accessor methods of the public API (each takes `&self`). -/
inductive Accessor where
  | getRefOp : Accessor
  | getFlagAOp : Accessor
  | getFlagBOp : Accessor

/-- The value returned by one accessor invocation. -/
inductive Answer where
  | addrAns : Nat → Answer
  | flagAns : Bool → Answer
deriving DecidableEq

/-- Invoking one accessor: each method borrows `self` immutably, so it
returns the (unchanged) object together with its answer. -/
def RefWith2Flags.call (self : RefWith2Flags) : Accessor → RefWith2Flags × Answer
  | .getRefOp => (self, .addrAns self.get_ref)
  | .getFlagAOp => (self, .flagAns self.get_flag_a)
  | .getFlagBOp => (self, .flagAns self.get_flag_b)

/-- Invoking a whole sequence of accessors, threading the object state. -/
def RefWith2Flags.runCalls (self : RefWith2Flags) :
    List Accessor → RefWith2Flags × List Answer
  | [] => (self, [])
  | op :: ops =>
    ((RefWith2Flags.runCalls (self.call op).1 ops).1,
      (self.call op).2 :: (RefWith2Flags.runCalls (self.call op).1 ops).2)

/-! ### Helper lemmas about low bits of aligned words -/

lemma aligned_mod_four (alignOfT ptr : ℕ) (halign : alignOfT % 4 = 0)
    (haddr : ptr % alignOfT = 0) : ptr % 4 = 0 :=
  Nat.mod_eq_zero_of_dvd
    ((Nat.dvd_of_mod_eq_zero halign).trans (Nat.dvd_of_mod_eq_zero haddr))

lemma low_bits_zero (k i : ℕ) (hi : i < 2) : (4 * k).testBit i = false := by
  rw [Nat.testBit_to_div_mod, decide_eq_false_iff_not]
  interval_cases i <;> norm_num <;> omega

lemma small_testBit_ge (c i : ℕ) (hc : c < 4) (hi : 2 ≤ i) : c.testBit i = false :=
  Nat.testBit_eq_false_of_lt (lt_of_lt_of_le hc (by
    calc (4:ℕ) = 2 ^ 2 := by norm_num
    _ ≤ 2 ^ i := Nat.pow_le_pow_right (by norm_num) hi))

lemma testBit_ge_two (k c i : ℕ) (hc : c < 4) (hi : 2 ≤ i) :
    (4 * k + c).testBit i = (4 * k).testBit i := by
  rw [Nat.testBit_to_div_mod, Nat.testBit_to_div_mod]
  have hpow : (2:ℕ) ^ i = 4 * 2 ^ (i - 2) := by
    have h4 : (4:ℕ) = 2 ^ 2 := by norm_num
    rw [h4, ← pow_add]
    congr 1
    omega
  rw [hpow, ← Nat.div_div_eq_div_mul, ← Nat.div_div_eq_div_mul]
  have h1 : (4 * k + c) / 4 = k := by omega
  have h2 : 4 * k / 4 = k := by omega
  rw [h1, h2]

lemma testBit_ge_usize (x i : ℕ) (hx : x < 2 ^ 64) (hi : 64 ≤ i) :
    x.testBit i = false :=
  Nat.testBit_eq_false_of_lt
    (lt_of_lt_of_le hx (Nat.pow_le_pow_right (by norm_num) hi))

lemma four_mul_lor (k c : ℕ) (hc : c < 4) : 4 * k ||| c = 4 * k + c := by
  apply Nat.eq_of_testBit_eq
  intro i
  rw [Nat.testBit_lor]
  rcases Nat.lt_or_ge i 2 with hi | hi
  · rw [low_bits_zero k i hi, Bool.false_or, Nat.testBit_to_div_mod,
      Nat.testBit_to_div_mod, decide_eq_decide]
    interval_cases i <;> norm_num <;> omega
  · rw [small_testBit_ge c i hc hi, Bool.or_false, testBit_ge_two k c i hc hi]

lemma mask_testBit_low (i : ℕ) (hi : i < 2) : (2 ^ 64 - 4 : ℕ).testBit i = false := by
  interval_cases i <;> decide

lemma mask_testBit_mid (i : ℕ) (h2 : 2 ≤ i) (h64 : i < 64) :
    (2 ^ 64 - 4 : ℕ).testBit i = true := by
  rw [Nat.testBit_to_div_mod, decide_eq_true_eq]
  have hpq : 2 ^ i * 2 ^ (64 - i) = 2 ^ 64 := by
    rw [← pow_add]
    congr 1
    omega
  have hp4 : (4:ℕ) ≤ 2 ^ i := by
    calc (4:ℕ) = 2 ^ 2 := by norm_num
    _ ≤ 2 ^ i := Nat.pow_le_pow_right (by norm_num) h2
  have hq2 : 2 ^ (64 - i) % 2 = 0 := by
    have hsplit : (2:ℕ) ^ (64 - i) = 2 * 2 ^ (64 - i - 1) := by
      rw [← pow_succ']
      congr 1
      omega
    omega
  have hq1 : 1 ≤ (2:ℕ) ^ (64 - i) := Nat.two_pow_pos (64 - i)
  have hdiv : (2 ^ 64 - 4) / 2 ^ i = 2 ^ (64 - i) - 1 := by
    have hmul : 2 ^ i * (2 ^ (64 - i) - 1) + 2 ^ i = 2 ^ i * 2 ^ (64 - i) := by
      calc 2 ^ i * (2 ^ (64 - i) - 1) + 2 ^ i
          = 2 ^ i * ((2 ^ (64 - i) - 1) + 1) := by ring
      _ = 2 ^ i * 2 ^ (64 - i) := by
            congr 1
            omega
    have heq : (2:ℕ) ^ 64 - 4 = 2 ^ i * (2 ^ (64 - i) - 1) + (2 ^ i - 4) := by
      omega
    rw [heq, Nat.mul_add_div (by omega)]
    have hz : ((2:ℕ) ^ i - 4) / 2 ^ i = 0 := Nat.div_eq_of_lt (by omega)
    omega
  rw [hdiv]
  omega

lemma four_mul_add_mask (k c : ℕ) (hc : c < 4) (hlt : 4 * k + c < 2 ^ 64) :
    (4 * k + c) &&& (2 ^ 64 - 4) = 4 * k := by
  apply Nat.eq_of_testBit_eq
  intro i
  rw [Nat.testBit_land]
  rcases Nat.lt_or_ge i 2 with hi | hi
  · rw [mask_testBit_low i hi, Bool.and_false, low_bits_zero k i hi]
  · rcases Nat.lt_or_ge i 64 with hi64 | hi64
    · rw [mask_testBit_mid i hi hi64, Bool.and_true, testBit_ge_two k c i hc hi]
    · rw [testBit_ge_usize (4 * k + c) i hlt hi64, Bool.false_and,
        testBit_ge_usize (4 * k) i (by omega) hi64]

/-! ### The packed word of a constructed instance -/

lemma packed_eq_add (ptr : ℕ) (a b : Bool) (h4 : ptr % 4 = 0) :
    ptr ||| a.toNat ||| b.toNat <<< 1 = ptr + a.toNat + 2 * b.toNat := by
  obtain ⟨k, hk⟩ : ∃ k, ptr = 4 * k := ⟨ptr / 4, by omega⟩
  subst hk
  cases a <;> cases b <;>
    simp only [Bool.toNat_true, Bool.toNat_false, Nat.lor_assoc]
  · rw [(by decide : ((0:ℕ) ||| 0 <<< 1) = 0), four_mul_lor k 0 (by norm_num)]
  · rw [(by decide : ((0:ℕ) ||| 1 <<< 1) = 2), four_mul_lor k 2 (by norm_num)]
  · rw [(by decide : ((1:ℕ) ||| 0 <<< 1) = 1), four_mul_lor k 1 (by norm_num)]
  · rw [(by decide : ((1:ℕ) ||| 1 <<< 1) = 3), four_mul_lor k 3 (by norm_num)]

lemma new_eq_some (alignOfT ptr : ℕ) (a b : Bool) (halign : alignOfT % 4 = 0) :
    RefWith2Flags.new alignOfT ptr a b =
      some ⟨ptr ||| a.toNat ||| b.toNat <<< 1⟩ := by
  simp only [RefWith2Flags.new, if_pos halign]

lemma new_eq_none (alignOfT ptr : ℕ) (a b : Bool) (halign : alignOfT % 4 ≠ 0) :
    RefWith2Flags.new alignOfT ptr a b = none := by
  simp only [RefWith2Flags.new, if_neg halign]

lemma new_inv (alignOfT ptr : ℕ) (a b : Bool) (t : RefWith2Flags)
    (h : RefWith2Flags.new alignOfT ptr a b = some t) :
    alignOfT % 4 = 0 ∧ t = ⟨ptr ||| a.toNat ||| b.toNat <<< 1⟩ := by
  by_cases halign : alignOfT % 4 = 0
  · rw [new_eq_some alignOfT ptr a b halign] at h
    exact ⟨halign, (Option.some.inj h).symm⟩
  · rw [new_eq_none alignOfT ptr a b halign] at h
    exact absurd h (by simp)

lemma get_ref_packed (ptr : ℕ) (a b : Bool) (h4 : ptr % 4 = 0)
    (hlt : ptr < usizeSize) :
    RefWith2Flags.get_ref ⟨ptr ||| a.toNat ||| b.toNat <<< 1⟩ = ptr := by
  have hlt' : ptr < 2 ^ 64 := hlt
  simp only [RefWith2Flags.get_ref, notThree, usizeSize, usizeBits]
  rw [packed_eq_add ptr a b h4]
  obtain ⟨k, hk⟩ : ∃ k, ptr = 4 * k := ⟨ptr / 4, by omega⟩
  subst hk
  have hc : a.toNat + 2 * b.toNat < 4 := by cases a <;> cases b <;> decide
  have hre : 4 * k + a.toNat + 2 * b.toNat = 4 * k + (a.toNat + 2 * b.toNat) := by
    omega
  rw [hre]
  exact four_mul_add_mask k (a.toNat + 2 * b.toNat) hc (by omega)

lemma get_flag_a_packed (ptr : ℕ) (a b : Bool) (h4 : ptr % 4 = 0) :
    RefWith2Flags.get_flag_a ⟨ptr ||| a.toNat ||| b.toNat <<< 1⟩ = a := by
  simp only [RefWith2Flags.get_flag_a]
  rw [packed_eq_add ptr a b h4, Nat.and_one_is_mod]
  have hmod : (ptr + a.toNat + 2 * b.toNat) % 2 = a.toNat := by
    cases a <;> cases b <;> simp only [Bool.toNat_true, Bool.toNat_false] <;> omega
  rw [hmod]
  cases a <;> decide

lemma get_flag_b_packed (ptr : ℕ) (a b : Bool) (h4 : ptr % 4 = 0) :
    RefWith2Flags.get_flag_b ⟨ptr ||| a.toNat ||| b.toNat <<< 1⟩ = b := by
  simp only [RefWith2Flags.get_flag_b]
  rw [packed_eq_add ptr a b h4]
  nth_rewrite 2 [(by norm_num : (2:ℕ) = 2 ^ 1)]
  rw [Nat.and_two_pow]
  have hbit : (ptr + a.toNat + 2 * b.toNat).testBit 1 = b := by
    rw [Nat.testBit_to_div_mod]
    cases a <;> cases b <;>
      simp only [Bool.toNat_true, Bool.toNat_false, decide_eq_true_eq,
        decide_eq_false_iff_not, pow_one] <;> omega
  rw [hbit]
  cases b <;> decide

/-! ### Claims -/

/-- C1: Round-trip.  For every reference (numeric address `ptr`, within the
machine word range, aligned per the allocator invariant) to a type whose
alignment is a multiple of 4, and all booleans `a`, `b`, the instance built
by `new` decodes via `get_ref` to exactly the original address bit-for-bit
(hence, under any memory, to the same underlying data, not a copy), via
`get_flag_a` to `a`, and via `get_flag_b` to `b`. -/
theorem c1_round_trip (alignOfT ptr : ℕ) (a b : Bool)
    (halign : alignOfT % 4 = 0) (haddr : ptr % alignOfT = 0)
    (hlt : ptr < usizeSize) :
    ∃ t : RefWith2Flags, RefWith2Flags.new alignOfT ptr a b = some t ∧
      t.get_ref = ptr ∧ (∀ mem : ℕ → ℤ, mem t.get_ref = mem ptr) ∧
      t.get_flag_a = a ∧ t.get_flag_b = b := by
  have h4 := aligned_mod_four alignOfT ptr halign haddr
  refine ⟨⟨ptr ||| a.toNat ||| b.toNat <<< 1⟩,
    new_eq_some alignOfT ptr a b halign, ?_, ?_, ?_, ?_⟩
  · exact get_ref_packed ptr a b h4 hlt
  · intro mem
    rw [get_ref_packed ptr a b h4 hlt]
  · exact get_flag_a_packed ptr a b h4
  · exact get_flag_b_packed ptr a b h4

/-- C1 witness: concrete instantiation at alignment 4, address 4096,
flags `(true, false)`. -/
theorem c1_round_trip_witness :
    ∃ t : RefWith2Flags, RefWith2Flags.new 4 4096 true false = some t ∧
      t.get_ref = 4096 ∧ (∀ mem : ℕ → ℤ, mem t.get_ref = mem 4096) ∧
      t.get_flag_a = true ∧ t.get_flag_b = false :=
  c1_round_trip 4 4096 true false (by norm_num) (by norm_num) (by decide)

/-- C2: Alignment rejection.  For every type whose alignment is not a
multiple of 4, every call to `new` fails (the `assert!` panics, modelled as
`none`) and never returns a constructed value. -/
theorem c2_alignment_rejection (alignOfT ptr : ℕ) (a b : Bool)
    (halign : alignOfT % 4 ≠ 0) :
    RefWith2Flags.new alignOfT ptr a b = none :=
  new_eq_none alignOfT ptr a b halign

/-- C2 witness: a 1-byte-aligned type (such as `u8`) is rejected. -/
theorem c2_alignment_rejection_witness :
    RefWith2Flags.new 1 4096 true true = none :=
  c2_alignment_rejection 1 4096 true true (by norm_num)

/-- C3: Encoding equation.  Every constructed instance's `ptr_and_bit` is the
bitwise OR of the address, bit 0 for flag A, and bit 1 for flag B; and when
the address's two low bits are 0 this OR equals `ptr + a + 2 * b`, losing no
address information. -/
theorem c3_encoding_equation (alignOfT ptr : ℕ) (a b : Bool) (t : RefWith2Flags)
    (h : RefWith2Flags.new alignOfT ptr a b = some t) :
    t.ptr_and_bit = ptr ||| a.toNat ||| b.toNat <<< 1 ∧
      (ptr % 4 = 0 → t.ptr_and_bit = ptr + a.toNat + 2 * b.toNat) := by
  obtain ⟨-, ht⟩ := new_inv alignOfT ptr a b t h
  subst ht
  exact ⟨rfl, fun h4 => packed_eq_add ptr a b h4⟩

/-- C3 witness: at alignment 4, address 8, flags `(true, true)` the packed
word is `11 = 8 + 1 + 2`. -/
theorem c3_encoding_equation_witness :
    (RefWith2Flags.mk 11).ptr_and_bit =
        8 ||| (true : Bool).toNat ||| (true : Bool).toNat <<< 1 ∧
      (8 % 4 = 0 →
        (RefWith2Flags.mk 11).ptr_and_bit =
          8 + (true : Bool).toNat + 2 * (true : Bool).toNat) :=
  c3_encoding_equation 4 8 true true (RefWith2Flags.mk 11) (by decide)

/-- C4: Decoding of the reference.  `get_ref` computes its result by masking
off exactly the two low bits of the packed word (`ptr_and_bit &&& !3`), and
for a constructed instance over an address whose two low bits were zero this
recovers the exact original numeric address. -/
theorem c4_get_ref_decodes (alignOfT ptr : ℕ) (a b : Bool) (t : RefWith2Flags)
    (h : RefWith2Flags.new alignOfT ptr a b = some t)
    (haddr : ptr % alignOfT = 0) (hlt : ptr < usizeSize) :
    t.get_ref = t.ptr_and_bit &&& notThree ∧ t.get_ref = ptr := by
  obtain ⟨halign, ht⟩ := new_inv alignOfT ptr a b t h
  have h4 := aligned_mod_four alignOfT ptr halign haddr
  subst ht
  exact ⟨rfl, get_ref_packed ptr a b h4 hlt⟩

/-- C4 witness: the instance built over address 4096 with flags
`(true, false)` has packed word 4097 and decodes back to 4096. -/
theorem c4_get_ref_decodes_witness :
    (RefWith2Flags.mk 4097).get_ref = (RefWith2Flags.mk 4097).ptr_and_bit &&& notThree ∧
      (RefWith2Flags.mk 4097).get_ref = 4096 :=
  c4_get_ref_decodes 4 4096 true false (RefWith2Flags.mk 4097) (by decide)
    (by norm_num) (by decide)

/-- C5: Flag accessor definitions.  For every instance, `get_flag_a` returns
`(ptr_and_bit &&& 1) != 0` and `get_flag_b` returns `(ptr_and_bit &&& 2) != 0`;
both are pure functions of the stored word. -/
theorem c5_flag_accessors (t : RefWith2Flags) :
    (t.get_flag_a = true ↔ t.ptr_and_bit &&& 1 ≠ 0) ∧
      (t.get_flag_b = true ↔ t.ptr_and_bit &&& 2 ≠ 0) := by
  constructor <;>
    simp only [RefWith2Flags.get_flag_a, RefWith2Flags.get_flag_b, bne_iff_ne, ne_eq]

/-- C6: Independence.  For every aligned reference, each of the four flag
combinations decodes to exactly that pair; each flag accessor's result equals
the encoded flag regardless of the other flag and of the address bits;
`get_ref` equals the address regardless of both flags; and two instances
constructed over the same address with different flag pairs each decode their
own flags and both still point at the same shared address. -/
theorem c6_independence (alignOfT ptr : ℕ) (a b a2 b2 : Bool)
    (t t2 : RefWith2Flags)
    (halign : alignOfT % 4 = 0) (haddr : ptr % alignOfT = 0)
    (hlt : ptr < usizeSize)
    (h1 : RefWith2Flags.new alignOfT ptr a b = some t)
    (h2 : RefWith2Flags.new alignOfT ptr a2 b2 = some t2) :
    (t.get_flag_a = a ∧ t.get_flag_b = b ∧ t.get_ref = ptr) ∧
      (t2.get_flag_a = a2 ∧ t2.get_flag_b = b2 ∧ t2.get_ref = ptr) ∧
      t.get_ref = t2.get_ref := by
  obtain ⟨-, ht⟩ := new_inv alignOfT ptr a b t h1
  obtain ⟨-, ht2⟩ := new_inv alignOfT ptr a2 b2 t2 h2
  have h4 := aligned_mod_four alignOfT ptr halign haddr
  subst ht
  subst ht2
  refine ⟨⟨get_flag_a_packed ptr a b h4, get_flag_b_packed ptr a b h4,
    get_ref_packed ptr a b h4 hlt⟩,
    ⟨get_flag_a_packed ptr a2 b2 h4, get_flag_b_packed ptr a2 b2 h4,
      get_ref_packed ptr a2 b2 h4 hlt⟩, ?_⟩
  rw [get_ref_packed ptr a b h4 hlt, get_ref_packed ptr a2 b2 h4 hlt]

/-- C6 witness: two instances over address 4096 with flag pairs
`(true, false)` and `(false, true)` decode independently and share the
address. -/
theorem c6_independence_witness :
    ((RefWith2Flags.mk 4097).get_flag_a = true ∧
        (RefWith2Flags.mk 4097).get_flag_b = false ∧
        (RefWith2Flags.mk 4097).get_ref = 4096) ∧
      ((RefWith2Flags.mk 4098).get_flag_a = false ∧
        (RefWith2Flags.mk 4098).get_flag_b = true ∧
        (RefWith2Flags.mk 4098).get_ref = 4096) ∧
      (RefWith2Flags.mk 4097).get_ref = (RefWith2Flags.mk 4098).get_ref :=
  c6_independence 4 4096 true false false true (RefWith2Flags.mk 4097)
    (RefWith2Flags.mk 4098) (by norm_num) (by norm_num) (by decide)
    (by decide) (by decide)

/-- C7: Immutability and idempotence.  A `RefWith2Flags` value has exactly
one state from construction to destruction: running any sequence of the three
accessors leaves the object unchanged, and every answer in the sequence
depends only on the initial object — so the accessors may be invoked in any
order or repeatedly with identical results. -/
theorem c7_immutable_idempotent (t : RefWith2Flags) (ops : List Accessor) :
    (t.runCalls ops).1 = t ∧
      (t.runCalls ops).2 = ops.map (fun op => (t.call op).2) := by
  induction ops with
  | nil => exact ⟨rfl, rfl⟩
  | cons op ops ih =>
    have hcall : (t.call op).1 = t := by cases op <;> rfl
    simp only [RefWith2Flags.runCalls, List.map_cons, hcall]
    exact ⟨ih.1, by rw [ih.2]⟩

/-- C8: Concrete scenario.  For a memory holding the container
`[10, 20, 30]` at an (8-aligned, `Vec` alignment) address, the instance
built with flags `(true, false)` satisfies `get_ref()[1] = 20`,
`get_flag_a = true`, `get_flag_b = false`, and `get_ref()[2] = 30`. -/
theorem c8_concrete_scenario (vecAddr : ℕ) (mem : ℕ → List ℤ)
    (haddr : vecAddr % 8 = 0) (hlt : vecAddr < usizeSize)
    (hmem : mem vecAddr = [10, 20, 30]) :
    ∃ t : RefWith2Flags, RefWith2Flags.new 8 vecAddr true false = some t ∧
      (mem t.get_ref)[1]? = some 20 ∧ t.get_flag_a = true ∧
      t.get_flag_b = false ∧ (mem t.get_ref)[2]? = some 30 := by
  have h4 : vecAddr % 4 = 0 := by omega
  refine ⟨⟨vecAddr ||| (true : Bool).toNat ||| (false : Bool).toNat <<< 1⟩,
    new_eq_some 8 vecAddr true false (by norm_num), ?_, ?_, ?_, ?_⟩
  · rw [get_ref_packed vecAddr true false h4 hlt, hmem]
    rfl
  · exact get_flag_a_packed vecAddr true false h4
  · exact get_flag_b_packed vecAddr true false h4
  · rw [get_ref_packed vecAddr true false h4 hlt, hmem]
    rfl

/-- C8 witness: concrete memory function placing `[10, 20, 30]` at
address 4096. -/
theorem c8_concrete_scenario_witness :
    ∃ t : RefWith2Flags, RefWith2Flags.new 8 4096 true false = some t ∧
      ((fun _ : ℕ => ([10, 20, 30] : List ℤ)) t.get_ref)[1]? = some 20 ∧
      t.get_flag_a = true ∧ t.get_flag_b = false ∧
      ((fun _ : ℕ => ([10, 20, 30] : List ℤ)) t.get_ref)[2]? = some 30 :=
  c8_concrete_scenario 4096 (fun _ => [10, 20, 30]) (by norm_num) (by decide) rfl

/-- C9: Identity when both flags are false.  For every address and any type
whose alignment is a multiple of 4, `new` with `(false, false)` produces a
packed word numerically equal to the raw address, with no bit modified. -/
theorem c9_flags_false_identity (alignOfT ptr : ℕ) (halign : alignOfT % 4 = 0) :
    ∃ t : RefWith2Flags, RefWith2Flags.new alignOfT ptr false false = some t ∧
      t.ptr_and_bit = ptr := by
  refine ⟨⟨ptr ||| (false : Bool).toNat ||| (false : Bool).toNat <<< 1⟩,
    new_eq_some alignOfT ptr false false halign, ?_⟩
  simp only [Bool.toNat_false, Nat.zero_shiftLeft, Nat.or_zero]

/-- C9 witness: at alignment 4, address 12, the packed word is exactly 12. -/
theorem c9_flags_false_identity_witness :
    ∃ t : RefWith2Flags, RefWith2Flags.new 4 12 false false = some t ∧
      t.ptr_and_bit = 12 :=
  c9_flags_false_identity 4 12 (by norm_num)

/-- C10: Decode-encode round trip.  Re-constructing from the decoded
components of a validly constructed instance yields an instance with the
identical packed word. -/
theorem c10_decode_encode_round_trip (alignOfT ptr : ℕ) (a b : Bool)
    (t : RefWith2Flags)
    (haddr : ptr % alignOfT = 0) (hlt : ptr < usizeSize)
    (h : RefWith2Flags.new alignOfT ptr a b = some t) :
    ∃ t2 : RefWith2Flags,
      RefWith2Flags.new alignOfT t.get_ref t.get_flag_a t.get_flag_b = some t2 ∧
        t2.ptr_and_bit = t.ptr_and_bit := by
  obtain ⟨halign, ht⟩ := new_inv alignOfT ptr a b t h
  have h4 := aligned_mod_four alignOfT ptr halign haddr
  subst ht
  rw [get_ref_packed ptr a b h4 hlt, get_flag_a_packed ptr a b h4,
    get_flag_b_packed ptr a b h4]
  exact ⟨⟨ptr ||| a.toNat ||| b.toNat <<< 1⟩,
    new_eq_some alignOfT ptr a b halign, rfl⟩

/-- C10 witness: the instance with packed word 4099 (address 4096, flags
`(true, true)`) re-encodes to the identical packed word. -/
theorem c10_decode_encode_round_trip_witness :
    ∃ t2 : RefWith2Flags,
      RefWith2Flags.new 4 (RefWith2Flags.mk 4099).get_ref
          (RefWith2Flags.mk 4099).get_flag_a
          (RefWith2Flags.mk 4099).get_flag_b = some t2 ∧
        t2.ptr_and_bit = (RefWith2Flags.mk 4099).ptr_and_bit :=
  c10_decode_encode_round_trip 4 4096 true true (RefWith2Flags.mk 4099)
    (by norm_num) (by decide) (by decide)
